import Mathlib

/-!
Verification of the microdot channel core (core/channel.py): encrypted dotfile
entries, their blob-name codec, the link/unlink state machine, channel
scanning, and the bulk operations. Definitions are shallow embeddings of the
Python source; components that live outside the provided sources (the
cryptography library, core.utils, the format constants) are modelled from the
specification and marked as such in their doc comments.
-/

namespace Microdot

/-- Byte strings are modelled as lists of naturals. -/
abbrev Bytes := List Nat

/-- Filesystem paths are modelled as lists of name components. -/
abbrev FPath := List String

/-- Content of a file as an algebraic value: raw bytes, a packed directory
archive (root name plus relative entries), or a fernet token wrapping a
payload under a key. -/
inductive Data where
  | bytes : Bytes → Data
  | tar : FPath → List (FPath × Bytes) → Data
  | token : Bytes → Data → Data
deriving DecidableEq

/-- Modelled from the spec: section 4.3 Symmetric Crypto Engine (the
cryptography.fernet library is an external collaborator, not under src).
Encryption wraps the payload in an authenticated token under the key. -/
def fernetEncrypt (key : Bytes) (d : Data) : Data := Data.token key d

/-- Modelled from the spec: section 4.3. Decryption succeeds exactly on a
token produced under the same key and fails closed on a wrong key or on data
that is not a token (corrupted or tampered blob). -/
def fernetDecrypt (key : Bytes) : Data → Option Data
  | Data.token k p => if k = key then some p else none
  | _ => none

/-- Modelled from the spec: section 4.2 Archive Packer (core.utils.get_tar is
not under src). Packing records the subtree rooted at the entry name, so that
unpacking into a scratch directory exposes that name, as
DotDirEncrypted.decrypt expects when it moves the extracted root into place. -/
def getTar (nm : FPath) (tree : List (FPath × Bytes)) : Data := Data.tar nm tree

/-- Mixing step of the modelled content hasher. -/
def hashStep (a b : Nat) : Nat := (a * 31 + b + 7) % 1000000007

/-- Fold a byte list into the running digest. -/
def bytesFold (acc : Nat) (bs : Bytes) : Nat := bs.foldl hashStep acc

/-- Fold the characters of a string into the running digest. -/
def strFold (acc : Nat) (s : String) : Nat :=
  bytesFold acc (s.toList.map Char.toNat)

/-- Fold a path into the running digest. -/
def pathFold (acc : Nat) (p : FPath) : Nat := p.foldl strFold acc

/-- Digest of a file content value. -/
def dataHash : Data → Nat
  | Data.bytes bs => bytesFold 2 bs
  | Data.tar root entries =>
      entries.foldl (fun a pr => bytesFold (pathFold a pr.1) pr.2) (pathFold 3 root)
  | Data.token k d => hashStep (bytesFold 5 k) (dataHash d)

/-- Digest of a directory tree given as relative entries. -/
def treeHash (t : List (FPath × Bytes)) : Nat :=
  t.foldl (fun a pr => bytesFold (pathFold a pr.1) pr.2) 11

/-- Render a digest as an eight character decimal fingerprint. -/
def render8 (n : Nat) : String :=
  String.mk
    [Nat.digitChar (n / 10000000 % 10), Nat.digitChar (n / 1000000 % 10),
     Nat.digitChar (n / 100000 % 10), Nat.digitChar (n / 10000 % 10),
     Nat.digitChar (n / 1000 % 10), Nat.digitChar (n / 100 % 10),
     Nat.digitChar (n / 10 % 10), Nat.digitChar (n % 10)]

/-- Modelled from the spec: section 4.1 Content Hasher (core.utils.get_hash is
not under src): a deterministic eight character fingerprint of a file. -/
def getHash8 (d : Data) : String := render8 (dataHash d)

/-- Decimal value of a digit character list. -/
def digitsVal (cs : List Char) : Nat :=
  cs.foldl (fun a c => a * 10 + (c.toNat - 48)) 0

/-- Modelled from the spec: the TIMESTAMP_FORMAT constant (not under src) is a
fixed width numeric year month day hour minute second form; strptime succeeds
exactly on fourteen digits with the fields in calendar range. -/
def tsParses (s : String) : Bool :=
  let cs := s.toList
  decide (cs.length = 14) && cs.all Char.isDigit &&
    (let mo := digitsVal ((cs.drop 4).take 2)
     let da := digitsVal ((cs.drop 6).take 2)
     let ho := digitsVal ((cs.drop 8).take 2)
     let mi := digitsVal ((cs.drop 10).take 2)
     let se := digitsVal ((cs.drop 12).take 2)
     decide (1 ≤ mo) && decide (mo ≤ 12) && decide (1 ≤ da) && decide (da ≤ 31) &&
       decide (ho ≤ 23) && decide (mi ≤ 59) && decide (se ≤ 59))

/-- Split a character list at every hash character, keeping empty pieces,
embedding the str.split method used on blob filenames. -/
def splitHashAux (cur : List Char) : List Char → List (List Char)
  | [] => [cur.reverse]
  | c :: cs =>
      if c = '#' then cur.reverse :: splitHashAux [] cs
      else splitHashAux (c :: cur) cs

/-- Hash separated segments of a filename. -/
def splitHash (s : String) : List String :=
  (splitHashAux [] s.toList).map (fun l => String.mk l)

/-- Suffix test on strings, embedding str.endswith. -/
def strEndsWith (s suffix : String) : Bool :=
  suffix.toList.isSuffixOf s.toList

/-- Component wise prefix test on paths. -/
def pathIsPrefix : FPath → FPath → Bool
  | [], _ => true
  | _ :: _, [] => false
  | a :: as, b :: bs => decide (a = b) && pathIsPrefix as bs

/-- Errors raised by the embedded operations; MicrodotError raise sites are
distinguished by their message, and attrErr stands for the uncaught Python
AttributeError. -/
inductive Err where
  | parseFail
  | alreadyLinked
  | linkExists
  | blobExists
  | decryptFail
  | readFail
  | tarFail
  | moveFail
  | missingPath
  | attrErr
deriving DecidableEq

/-- Kind of an encrypted entry: file or directory. -/
inductive EKind where
  | file
  | dir
deriving DecidableEq

/-- Structured form of an encrypted blob filename: logical name, hash
fingerprint, timestamp and kind segment, as laid out in section 3 of the
spec. Hash and timestamp segments are fixed width, so this structured name
is in bijection with the flat filename. -/
structure BlobName where
  nm : FPath
  hash : String
  ts : String
  kind : EKind
deriving DecidableEq

/-- Channel blob store: the encrypted files present in the channel directory,
keyed by their blob name. -/
abbrev BlobStore := List (BlobName × Data)

/-- Read the blob stored under a name. -/
def storeGet (store : BlobStore) (n : BlobName) : Option Data :=
  (store.find? (fun pr => decide (pr.1 = n))).map (fun pr => pr.2)

/-- Existence test on the blob store, embedding encrypted_path.exists. -/
def storeHas (store : BlobStore) (n : BlobName) : Bool :=
  (storeGet store n).isSome

/-- Remove a blob file, embedding Path.unlink and remove_path on blobs. -/
def storeRemove (store : BlobStore) (n : BlobName) : BlobStore :=
  store.filter (fun pr => decide (pr.1 ≠ n))

/-- Write a blob file, embedding Path.write_bytes on the encrypted path. -/
def storeWrite (store : BlobStore) (n : BlobName) (d : Data) : BlobStore :=
  (n, d) :: storeRemove store n

/-- State of the home directory location link_path: nothing there, a symlink
to some target, or a real non symlink object. -/
inductive Slot where
  | empty
  | symlinkTo : FPath → Slot
  | realObj
deriving DecidableEq

/-- Embedding of Path.is_symlink on the link slot. -/
def slotIsSymlink : Slot → Bool
  | Slot.symlinkTo _ => true
  | _ => false

/-- Embedding of Path.exists on the link slot; a symlink in this program
points at entry data that exists, so following it succeeds. -/
def slotExists : Slot → Bool
  | Slot.empty => false
  | _ => true

/-- Embedding of DotFileBaseClass.check_symlink: the link slot holds a
symlink that resolves to the given data path. -/
def checkSymlink (s : Slot) (p : FPath) : Bool :=
  match s with
  | Slot.symlinkTo t => decide (t = p)
  | _ => false

/-- Decidable equality on results, so that concrete runs can be settled by
the decide tactic. -/
instance instDecEqExcept {ε α : Type} [DecidableEq ε] [DecidableEq α] :
    DecidableEq (Except ε α)
  | Except.ok a, Except.ok b =>
      decidable_of_iff (a = b)
        (by constructor
            · intro h; rw [h]
            · intro h; cases h; rfl)
  | Except.ok _, Except.error _ => isFalse (fun h => Except.noConfusion h)
  | Except.error _, Except.ok _ => isFalse (fun h => Except.noConfusion h)
  | Except.error e, Except.error f =>
      decidable_of_iff (e = f)
        (by constructor
            · intro h; rw [h]
            · intro h; cases h; rfl)

/-- Embedding of DotFileBaseClass.link with target defaulted to the entry
data path: an existing symlink is removed first, a real object is removed
only under force, the two raise sites follow, then the symlink is created. -/
def linkOp (slot : Slot) (path : FPath) (force : Bool) : Except Err Slot :=
  let s1 := if slotIsSymlink slot then Slot.empty else slot
  let s2 := if slotExists s1 && force then Slot.empty else s1
  if slotIsSymlink s2 then Except.error Err.alreadyLinked
  else if slotExists s2 then Except.error Err.linkExists
  else Except.ok (Slot.symlinkTo path)

/-- Working copy of an encrypted entry at its decrypted path: file content or
directory tree given by relative entries. -/
inductive WCopy where
  | file : Data → WCopy
  | dir : List (FPath × Bytes) → WCopy
deriving DecidableEq

/-- Kind of a working copy value. -/
def wcKind : WCopy → EKind
  | WCopy.file _ => EKind.file
  | WCopy.dir _ => EKind.dir

/-- Modelled content hash of the path handed to get_hash: the file digest or
the directory tree digest. -/
def wcHash : WCopy → String
  | WCopy.file d => getHash8 d
  | WCopy.dir t => render8 (treeHash t)

/-- Byte stream that encrypt reads after the optional archiving step: the
file bytes, or for a directory the packed archive produced by get_tar. -/
def packSrc (nm : FPath) : WCopy → Data
  | WCopy.file d => d
  | WCopy.dir t => getTar nm t

/-- Outcome of the embedded encrypt call: the encrypted path the entry now
carries (assigned before any failure), the resulting blob store, whether the
transient tar archive is still on disk afterwards, and the raised error if
any. -/
structure EncOut where
  encName : BlobName
  store : BlobStore
  tmpTarLeft : Bool
  err : Option Err
deriving DecidableEq

/-- Embedding of DotFileEncryptedBaseClass.encrypt together with
get_encrypted_path. The new blob name takes the hash of the source and the
current time; a directory source is first packed into a temporary tar file,
rebinding the src variable to that file. An existing blob aborts unless
force, in which case it is removed. The cleanup guard in the source re-tests
is_dir on the rebound src, which is a plain file in every case, so the
temporary tar archive is never removed on any exit path. -/
def encryptStep (key : Bytes) (nm : FPath) (kind : EKind) (src : WCopy)
    (store : BlobStore) (now : String) (force : Bool) : EncOut :=
  let newName : BlobName := ⟨nm, wcHash src, now, kind⟩
  let tarMade := decide (wcKind src = EKind.dir)
  let srcData := packSrc nm src
  if storeHas store newName && !force then
    ⟨newName, store, tarMade, some Err.blobExists⟩
  else
    let store1 := if storeHas store newName then storeRemove store newName else store
    let encrypted := fernetEncrypt key srcData
    ⟨newName, storeWrite store1 newName encrypted, tarMade, none⟩

/-- Embedding of decrypt for both entry variants, writing into the working
copy location. The file variant (DotFileEncryptedBaseClass.decrypt with dest
equal to self.path) first unlinks an existing destination, then reads and
decrypts the blob, so on failure the prior working copy is gone. The
directory variant (DotDirEncrypted.decrypt) decrypts into a fresh temporary
file, unpacks into a scratch directory and only then replaces the
destination wholesale, so on failure the prior working copy is untouched. -/
def decryptEntry (key : Bytes) (kind : EKind) (nm : FPath) (store : BlobStore)
    (encName : BlobName) (wc : Option WCopy) : Option WCopy × Option Err :=
  match kind with
  | EKind.file =>
      match storeGet store encName with
      | none => (none, some Err.readFail)
      | some blob =>
          match fernetDecrypt key blob with
          | none => (none, some Err.decryptFail)
          | some p => (some (WCopy.file p), none)
  | EKind.dir =>
      match storeGet store encName with
      | none => (wc, some Err.readFail)
      | some blob =>
          match fernetDecrypt key blob with
          | none => (wc, some Err.decryptFail)
          | some p =>
              match p with
              | Data.tar root entries =>
                  if root = nm then (some (WCopy.dir entries), none)
                  else (wc, some Err.moveFail)
              | _ => (wc, some Err.tarFail)

/-- Persistent identity of an encrypted entry as set up by construction:
logical name, kind, the hash parsed out of the blob filename, the current
encrypted path, and the decrypted working location self.path. -/
structure UEntry where
  nm : FPath
  kind : EKind
  hash : String
  encName : BlobName
  wpath : FPath
deriving DecidableEq

/-- Mutable surroundings of an encrypted entry: the working copy on disk,
the home directory link slot, and the channel blob store. -/
structure UState where
  wc : Option WCopy
  slot : Slot
  store : BlobStore
deriving DecidableEq

/-- Embedding of DotFileEncryptedBaseClass.update. Not linked or unchanged
is a no-op; otherwise re-encrypt the working copy under a fresh blob name
with force, unlink (removing symlink and working copy), delete the old blob,
then relink, which decrypts the new blob back out and recreates the
symlink. -/
def updateOp (key : Bytes) (e : UEntry) (st : UState) (now : String) :
    Except Err (UEntry × UState) :=
  if !(checkSymlink st.slot e.wpath) then Except.ok (e, st)
  else
    match st.wc with
    | none => Except.error Err.missingPath
    | some w =>
        if e.hash = wcHash w then Except.ok (e, st)
        else
          let old := e.encName
          let eo := encryptStep key e.nm e.kind w st.store now true
          match eo.err with
          | some er => Except.error er
          | none =>
              let e1 : UEntry := { e with encName := eo.encName }
              let store1 := storeRemove eo.store old
              match decryptEntry key e1.kind e1.nm store1 e1.encName none with
              | (_, some er) => Except.error er
              | (wc2, none) =>
                  match linkOp Slot.empty e1.wpath false with
                  | Except.error er => Except.error er
                  | Except.ok s2 => Except.ok (e1, ⟨wc2, s2, store1⟩)

/-- Outcome of the filename triage in DotFileEncryptedBaseClass.init on the
name segments: an active five segment blob, a six segment conflict blob, or
the fallback that treats the path as a fresh entry to be initialised. -/
inductive ParseForm where
  | active : String → String → String → ParseForm
  | conflict : String → String → String → ParseForm
  | fresh : ParseForm
deriving DecidableEq

/-- Embedding of the three nested try blocks of
DotFileEncryptedBaseClass.init applied to the hash separated segments of the
filename: five segments with a parseable timestamp give an active entry, six
give a conflict entry, and anything else falls through to the fresh init
interpretation. The fourth and fifth segments are never inspected. -/
def classifySegs (parts : List String) : ParseForm :=
  match parts with
  | [nm, h, ts, _, _] =>
      if tsParses ts then ParseForm.active nm h ts else ParseForm.fresh
  | [nm, h, ts, _, _, _] =>
      if tsParses ts then ParseForm.conflict nm h ts else ParseForm.fresh
  | _ => ParseForm.fresh

/-- Final name component of a path, embedding Path.name. -/
def pathName (p : FPath) : String := p.getLastD ""

/-- Embedding of Path.relative_to: succeeds exactly when the base is a
prefix of the path. -/
def relTo (p ch : FPath) : Option FPath :=
  if pathIsPrefix ch p then some (p.drop ch.length) else none

/-- Embedding of the whole parse triage of DotFileEncryptedBaseClass.init:
every branch needs relative_to against the channel, so a path outside the
channel raises the failed to parse MicrodotError, and any path inside the
channel is accepted with the form chosen by classifySegs. -/
def encInitParse (ch p : FPath) : Except Err ParseForm :=
  match relTo p ch with
  | none => Except.error Err.parseFail
  | some _ => Except.ok (classifySegs (splitHash (pathName p)))

/-- Written from the claim wording, for comparison with the source parse:
the five segment active blob form with an eight character hash, a valid
timestamp, a kind segment F or D and the CRYPT marker. -/
def specForm5 (s : String) : Bool :=
  match splitHash s with
  | [_, h, ts, k, c] =>
      decide (h.length = 8) && tsParses ts &&
        (decide (k = "F") || decide (k = "D")) && decide (c = "CRYPT")
  | _ => false

/-- Written from the claim wording, for comparison with the source parse:
the six segment conflict blob form. -/
def specForm6 (s : String) : Bool :=
  match splitHash s with
  | [_, h, ts, k, c, c2] =>
      decide (h.length = 8) && tsParses ts &&
        (decide (k = "F") || decide (k = "D")) && decide (c = "CRYPT") &&
        decide (c2 = "CONFLICT")
  | _ => false

/-- Modelled from the spec: the extension constants from the core package
(not under src), derived from the blob name layout of section 3. -/
def encFileExt : String := "#F#CRYPT"

/-- Modelled from the spec: encrypted directory blob suffix. -/
def encDirExt : String := "#D#CRYPT"

/-- Modelled from the spec: conflict marker suffix shared by both kinds. -/
def confExt : String := "#CONFLICT"

/-- Modelled from the spec: conflict file blob suffix. -/
def confFileExt : String := "#F#CRYPT#CONFLICT"

/-- Modelled from the spec: conflict directory blob suffix. -/
def confDirExt : String := "#D#CRYPT#CONFLICT"

/-- Entry as indexed by a channel scan: logical name, the path attribute
(decrypted location for encrypted entries, channel location for plain ones),
the encrypted flag, and the timestamp attribute, which plain entries do not
have. -/
structure SEntry where
  name : FPath
  path : FPath
  isEnc : Bool
  ts : Option String
deriving DecidableEq

-- Channel directory listing: files and subdirectories, as a mutual pair so
-- that the scan recursion is structural.
mutual
/-- Channel listing item: a file or a subdirectory with its own listing. -/
inductive FTree where
  | leaf : String → FTree
  | node : String → FList → FTree
/-- Listing of a directory: a list of channel listing items. -/
inductive FList where
  | fnil : FList
  | fcons : FTree → FList → FList
end

/-- Scan configuration: the configured check directory names, the scan
blacklist, the channel path, the decrypted tree root for this channel
(channel parent, decrypted dir name, channel name), and the current time
used for fresh entries. -/
structure ScanCfg where
  checkDirs : List String
  blacklist : List String
  ch : FPath
  decRoot : FPath
  now : String

/-- Embedding of the mkdir in DotFileEncryptedBaseClass.init: the parent of
the decrypted working location is created when it is not already a
directory. -/
def entryEnsure (fs : List FPath) (parent : FPath) : List FPath :=
  if parent ∈ fs then fs else fs ++ [parent]

/-- Embedding of Channel.create_obj on a directory item named fname sitting
at the channel relative directory rel, together with the filesystem effect
of constructing the object: encrypted entries ensure their decrypted parent
directory exists. -/
def createObjFs (cfg : ScanCfg) (rel : FPath) (fs : List FPath) (fname : String) :
    SEntry × List FPath :=
  if strEndsWith fname encDirExt || strEndsWith fname confDirExt ||
      strEndsWith fname encFileExt || strEndsWith fname confFileExt then
    match classifySegs (splitHash fname) with
    | ParseForm.active nm _ ts =>
        (⟨rel ++ [nm], cfg.decRoot ++ rel ++ [nm], true, some ts⟩,
          entryEnsure fs (cfg.decRoot ++ rel))
    | ParseForm.conflict nm _ ts =>
        (⟨rel ++ [nm], cfg.decRoot ++ rel ++ [nm], true, some ts⟩,
          entryEnsure fs (cfg.decRoot ++ rel))
    | ParseForm.fresh =>
        (⟨rel ++ [fname], cfg.decRoot ++ rel ++ [fname], true, some cfg.now⟩,
          entryEnsure fs (cfg.decRoot ++ rel))
  else
    (⟨rel ++ [fname], cfg.ch ++ rel ++ [fname], false, none⟩, fs)

/-- Lexicographic path order used to mirror sorting by name. -/
def pathLe : FPath → FPath → Bool
  | [], _ => true
  | _ :: _, [] => false
  | a :: as, b :: bs => if a = b then pathLe as bs else decide (a < b)

/-- Stable insertion into a sorted list. -/
def insertLe (le : SEntry → SEntry → Bool) (x : SEntry) : List SEntry → List SEntry
  | [] => [x]
  | y :: ys => if le x y then x :: y :: ys else y :: insertLe le x ys

/-- Stable insertion sort, mirroring the stable Python sorted. -/
def sortLe (le : SEntry → SEntry → Bool) : List SEntry → List SEntry
  | [] => []
  | x :: xs => insertLe le x (sortLe le xs)

/-- Sort scan results by logical name. -/
def sortByName (l : List SEntry) : List SEntry :=
  sortLe (fun a b => pathLe a.name b.name) l

/-- File pass of Channel.search_dotfiles: every file whose name does not end
with the conflict extension becomes an entry. -/
def filesPass (cfg : ScanCfg) (rel : FPath) (fs : List FPath) :
    FList → List SEntry × List FPath
  | FList.fnil => ([], fs)
  | FList.fcons (FTree.leaf fname) rest =>
      if strEndsWith fname confExt then filesPass cfg rel fs rest
      else
        let r := createObjFs cfg rel fs fname
        let rec1 := filesPass cfg rel r.2 rest
        (r.1 :: rec1.1, rec1.2)
  | FList.fcons (FTree.node _ _) rest => filesPass cfg rel fs rest

-- Directory pass of Channel.search_dotfiles: blacklisted names are
-- skipped, check directories are recursed into, and any other directory
-- becomes a single opaque entry.
mutual
/-- Directory pass over a listing, threading the filesystem state. -/
def scanDirsGo (cfg : ScanCfg) (rel : FPath) (fs : List FPath) :
    FList → List SEntry × List FPath
  | FList.fnil => ([], fs)
  | FList.fcons t rest =>
      let r := scanDirsTree cfg rel fs t
      let rr := scanDirsGo cfg rel r.2 rest
      (r.1 ++ rr.1, rr.2)
/-- Directory pass on one listing item: skip files and blacklisted names,
recurse into check directories, and make any other directory one opaque
entry. -/
def scanDirsTree (cfg : ScanCfg) (rel : FPath) (fs : List FPath) :
    FTree → List SEntry × List FPath
  | FTree.leaf _ => ([], fs)
  | FTree.node nm sub =>
      if nm ∈ cfg.blacklist then ([], fs)
      else if nm ∈ cfg.checkDirs then
        let rf := filesPass cfg (rel ++ [nm]) fs sub
        let rd := scanDirsGo cfg (rel ++ [nm]) rf.2 sub
        (sortByName (rf.1 ++ rd.1), rd.2)
      else
        let r := createObjFs cfg rel fs nm
        ([r.1], r.2)
end

/-- Embedding of Channel.search_dotfiles at the channel root. -/
def searchDotfiles (cfg : ScanCfg) (fs : List FPath) (items : FList) :
    List SEntry × List FPath :=
  let rf := filesPass cfg [] fs items
  let rd := scanDirsGo cfg [] rf.2 items
  (sortByName (rf.1 ++ rd.1), rd.2)

/-- File pass of Channel.search_conflicts: files whose name ends with the
conflict extension. -/
def conflictFilesPass (cfg : ScanCfg) (rel : FPath) (fs : List FPath) :
    FList → List SEntry × List FPath
  | FList.fnil => ([], fs)
  | FList.fcons (FTree.leaf fname) rest =>
      if strEndsWith fname confExt then
        let r := createObjFs cfg rel fs fname
        let rec1 := conflictFilesPass cfg rel r.2 rest
        (r.1 :: rec1.1, rec1.2)
      else conflictFilesPass cfg rel fs rest
  | FList.fcons (FTree.node _ _) rest => conflictFilesPass cfg rel fs rest

/-- Directory pass of Channel.search_conflicts: it never recurses, and it
appends an entry for every non blacklisted directory whose name is not in
the check set, whatever that directory is. -/
def conflictDirsPass (cfg : ScanCfg) (rel : FPath) (fs : List FPath) :
    FList → List SEntry × List FPath
  | FList.fnil => ([], fs)
  | FList.fcons (FTree.leaf _) rest => conflictDirsPass cfg rel fs rest
  | FList.fcons (FTree.node nm _) rest =>
      if nm ∈ cfg.blacklist then conflictDirsPass cfg rel fs rest
      else if nm ∈ cfg.checkDirs then conflictDirsPass cfg rel fs rest
      else
        let r := createObjFs cfg rel fs nm
        let rr := conflictDirsPass cfg rel r.2 rest
        (r.1 :: rr.1, rr.2)

/-- Embedding of Channel.search_conflicts at the channel root. -/
def searchConflicts (cfg : ScanCfg) (fs : List FPath) (items : FList) :
    List SEntry × List FPath :=
  let rf := conflictFilesPass cfg [] fs items
  let rd := conflictDirsPass cfg [] rf.2 items
  (sortByName (rf.1 ++ rd.1), rd.2)

/-- Embedding of Channel.filter_decrypted: the encrypted entries first, then
every entry whose path attribute is not among the encrypted entry paths. -/
def filterDecrypted (dfs : List SEntry) : List SEntry :=
  let encPaths := (dfs.filter (fun d => d.isEnc)).map (fun d => d.path)
  dfs.filter (fun d => d.isEnc) ++
    dfs.filter (fun d => !(decide (d.path ∈ encPaths)))

/-- Embedding of Channel.get_dotfile: first entry with the given logical
name, or not found. -/
def getDotfile (dfs : List SEntry) (nm : FPath) : Option SEntry :=
  dfs.find? (fun d => decide (d.name = nm))

/-- Embedding of the sorted call on conflicts in Channel.init: the sort key
reads the timestamp attribute of every element, so a plain entry in the
conflicts list raises AttributeError. -/
def sortConflicts (l : List SEntry) : Except Err (List SEntry) :=
  if l.all (fun e => e.ts.isSome) then
    Except.ok (sortLe (fun a b => decide (b.ts.getD "" ≤ a.ts.getD "")) l)
  else Except.error Err.attrErr

/-- Indexed channel: deduplicated dotfiles and the sorted conflicts. -/
structure ChannelObj where
  dotfiles : List SEntry
  conflicts : List SEntry
deriving DecidableEq

/-- Embedding of Channel.init over a channel listing, threading the
filesystem effect of entry construction. -/
def channelInit (cfg : ScanCfg) (fs : List FPath) (items : FList) :
    Except Err (ChannelObj × List FPath) :=
  let rd := searchDotfiles cfg fs items
  let dfs2 := filterDecrypted rd.1
  let rc := searchConflicts cfg rd.2 items
  match sortConflicts rc.1 with
  | Except.error er => Except.error er
  | Except.ok sc => Except.ok (⟨dfs2, sc⟩, rc.2)

/-- Channel entry for the bulk operations: logical name, data path and the
state of its home directory link slot. The bulk model covers plain entries,
whose link and unlink use the base class logic directly. -/
structure ChEntry where
  name : String
  path : FPath
  slot : Slot
deriving DecidableEq

/-- Observable log lines emitted by the bulk operations: the presentation
lines listing the affected subset, the per entry linked and unlinked debug
lines, and the not linked error line of unlink. -/
inductive LogLine where
  | presentLink : String → LogLine
  | presentUnlink : String → LogLine
  | linked : String → LogLine
  | unlinked : String → LogLine
  | errNotLinked : String → LogLine
deriving DecidableEq

/-- Result of a bulk operation: final entries, emitted log, raised error. -/
structure BulkResult where
  entries : List ChEntry
  log : List LogLine
  failed : Option Err
deriving DecidableEq

/-- Embedding of DotFileBaseClass.unlink on one entry: a not linked entry
logs an error and is left unchanged, a linked one loses its symlink. -/
def unlinkOne (e : ChEntry) : ChEntry × List LogLine :=
  if checkSymlink e.slot e.path then
    ({ e with slot := Slot.empty }, [LogLine.unlinked e.name])
  else (e, [LogLine.errNotLinked e.name])

/-- Loop of Channel.link_all after confirmation: it iterates over all
dotfiles of the channel, not over the presented subset, and a raised link
error aborts the remaining entries. -/
def linkAllLoop (force : Bool) : List ChEntry → List ChEntry × List LogLine × Option Err
  | [] => ([], [], none)
  | e :: rest =>
      match linkOp e.slot e.path force with
      | Except.ok s =>
          let r := linkAllLoop force rest
          ({ e with slot := s } :: r.1, LogLine.linked e.name :: r.2.1, r.2.2)
      | Except.error er => (e :: rest, [], some er)

/-- Embedding of Channel.link_all: present the currently unlinked subset,
then, if confirmed, run the loop over all entries. -/
def linkAll (entries : List ChEntry) (force confirmed : Bool) : BulkResult :=
  let todo := entries.filter (fun e => !(checkSymlink e.slot e.path))
  let log0 := todo.map (fun e => LogLine.presentLink e.name)
  if confirmed then
    let r := linkAllLoop force entries
    ⟨r.1, log0 ++ r.2.1, r.2.2⟩
  else ⟨entries, log0, none⟩

/-- Loop of Channel.unlink_all after confirmation: only the entries of the
presented linked subset are unlinked, the others are left untouched. -/
def unlinkAllLoop : List ChEntry → List ChEntry × List LogLine
  | [] => ([], [])
  | e :: rest =>
      let r := unlinkAllLoop rest
      if checkSymlink e.slot e.path then
        let u := unlinkOne e
        (u.1 :: r.1, u.2 ++ r.2)
      else (e :: r.1, r.2)

/-- Embedding of Channel.unlink_all: present the currently linked subset,
then, if confirmed, unlink exactly that subset. -/
def unlinkAll (entries : List ChEntry) (confirmed : Bool) : BulkResult :=
  let todo := entries.filter (fun e => checkSymlink e.slot e.path)
  let log0 := todo.map (fun e => LogLine.presentUnlink e.name)
  if confirmed then
    let r := unlinkAllLoop entries
    ⟨r.1, log0 ++ r.2, none⟩
  else ⟨entries, log0, none⟩

/-- Blob store of an entry after a successful update: the store produced by
the forced re-encryption of the working copy, with the previous blob
removed. -/
def updatedStore (key : Bytes) (e : UEntry) (store : BlobStore) (w : WCopy)
    (now : String) : BlobStore :=
  storeRemove (encryptStep key e.nm e.kind w store now true).store e.encName

/-- Demonstration key for concrete runs. -/
def demoKey : Bytes := [1, 2]

/-- A different key, standing for the wrong key of the tamper scenarios. -/
def demoKey2 : Bytes := [3, 4]

/-- Demonstration blob name of an active encrypted file entry. -/
def demoBlobName : BlobName := ⟨["f"], "00000000", "20220101120000", EKind.file⟩

/-- Demonstration blob store holding one valid token under demoKey. -/
def demoStore : BlobStore := [(demoBlobName, fernetEncrypt demoKey (Data.bytes [7, 8]))]

/-- Demonstration channel path. -/
def demoCh : FPath := ["home", "eco", "dots", "common"]

/-- Demonstration decrypted tree root of the channel. -/
def demoDecRoot : FPath := ["home", "eco", "dots", "decrypted", "common"]

/-- Demonstration timestamp. -/
def demoNow : String := "20220202120000"

/-- Malformed blob style filename whose timestamp segment does not parse. -/
def demoBadName : String := "file#IzjOuV4h#notatimestamp#F#CRYPT"

/-- Well formed five segment active blob filename. -/
def demoGoodName : String := "file.txt#IzjOuV4h#20220121162145#F#CRYPT"

/-- Well formed six segment conflict blob filename. -/
def demoConfName : String := "file.txt#IzjOuV4h#20220121162145#F#CRYPT#CONFLICT"

/-- Demonstration channel entry that is currently linked. -/
def demoLinkedEntry : ChEntry :=
  ⟨"a", ["dots", "common", "a"], Slot.symlinkTo ["dots", "common", "a"]⟩

/-- Demonstration channel with one linked and one unlinked plain entry. -/
def demoBulk : List ChEntry :=
  [demoLinkedEntry, ⟨"b", ["dots", "common", "b"], Slot.empty⟩]

/-- Demonstration encrypted file entry subject to an update. -/
def demoUEntry : UEntry :=
  ⟨["f"], EKind.file, "00000000", demoBlobName,
    ["home", "eco", "dots", "decrypted", "common", "f"]⟩

/-- Modified working copy content of the update scenario. -/
def demoWC : WCopy := WCopy.file (Data.bytes [9, 9])

/-- Demonstration entry surroundings: linked, modified working copy, and the
old blob in the store. -/
def demoUState : UState :=
  ⟨some demoWC, Slot.symlinkTo ["home", "eco", "dots", "decrypted", "common", "f"],
    demoStore⟩

/-- Scan configuration with an empty check set, for the opaque directory
scenario. -/
def demoCfg7 : ScanCfg := ⟨[], ["git"], demoCh, demoDecRoot, demoNow⟩

/-- Channel listing holding a single plain opaque directory. -/
def demoItems7 : FList :=
  FList.fcons (FTree.node "mydir" (FList.fcons (FTree.leaf "x") FList.fnil)) FList.fnil

/-- The plain opaque directory entry produced by scanning demoItems7. -/
def demoPlainDirEntry : SEntry := ⟨["mydir"], demoCh ++ ["mydir"], false, none⟩

/-- Scan configuration for the deduplication scenario. -/
def demoCfg8 : ScanCfg := ⟨["testdir"], ["git"], demoCh, demoDecRoot, demoNow⟩

/-- Channel listing with an encrypted blob and a legacy plaintext file both
producing the logical name f. -/
def demoItems8 : FList :=
  FList.fcons (FTree.leaf "f")
    (FList.fcons (FTree.leaf "f#ABCDEFGH#20220121162145#F#CRYPT") FList.fnil)

/-- The encrypted entry produced by scanning demoItems8. -/
def demoEncEntry8 : SEntry := ⟨["f"], demoDecRoot ++ ["f"], true, some "20220121162145"⟩

/-- The legacy plaintext entry produced by scanning demoItems8. -/
def demoPlainEntry8 : SEntry := ⟨["f"], demoCh ++ ["f"], false, none⟩

/-- Demonstration directory tree content for the archive scenarios. -/
def demoTree9 : List (FPath × Bytes) := [(["x"], [1])]

theorem storeGet_write_self (s : BlobStore) (n : BlobName) (d : Data) :
    storeGet (storeWrite s n d) n = some d := by
  simp [storeGet, storeWrite]

theorem storeGet_remove_self (s : BlobStore) (n : BlobName) :
    storeGet (storeRemove s n) n = none := by
  unfold storeGet storeRemove
  rw [List.find?_filter]
  have h : s.find? (fun a => decide (a.1 ≠ n) ∧ decide (a.1 = n)) = none := by
    rw [List.find?_eq_none]
    intro x _
    simp
  rw [h]
  rfl

theorem storeGet_remove_ne (s : BlobStore) (n m : BlobName) (h : m ≠ n) :
    storeGet (storeRemove s n) m = storeGet s m := by
  unfold storeGet storeRemove
  rw [List.find?_filter]
  have hp : (fun a : BlobName × Data => (decide (a.1 ≠ n) ∧ decide (a.1 = m) : Bool))
      = (fun a : BlobName × Data => decide (a.1 = m)) := by
    funext a
    by_cases ha : a.1 = m
    · subst ha
      simp [h]
    · simp [ha]
  rw [hp]

theorem storeGet_update (X : BlobStore) (old nn : BlobName) (d : Data)
    (hne : nn ≠ old) :
    storeGet (storeRemove (storeWrite X nn d) old) nn = some d := by
  rw [storeGet_remove_ne _ _ _ hne, storeGet_write_self]

theorem linkOp_ok (slot : Slot) (p : FPath) (force : Bool)
    (h : slot ≠ Slot.realObj ∨ force = true) :
    linkOp slot p force = Except.ok (Slot.symlinkTo p) := by
  cases slot with
  | empty => simp [linkOp, slotIsSymlink, slotExists]
  | symlinkTo t => simp [linkOp, slotIsSymlink, slotExists]
  | realObj =>
      rcases h with h | h
      · exact absurd rfl h
      · subst h
        simp [linkOp, slotIsSymlink, slotExists]

theorem linkAllLoop_ok (force : Bool) (entries : List ChEntry)
    (h : ∀ e ∈ entries, e.slot ≠ Slot.realObj ∨ force = true) :
    linkAllLoop force entries
      = (entries.map (fun e => { e with slot := Slot.symlinkTo e.path }),
         entries.map (fun e => LogLine.linked e.name), none) := by
  induction entries with
  | nil => rfl
  | cons e rest ih =>
      have he := h e (List.mem_cons_self e rest)
      have hrest := ih (fun x hx => h x (List.mem_cons_of_mem e hx))
      simp [linkAllLoop, linkOp_ok e.slot e.path force he, hrest]

theorem unlinkAllLoop_eq (entries : List ChEntry) :
    unlinkAllLoop entries
      = (entries.map
           (fun e => if checkSymlink e.slot e.path then { e with slot := Slot.empty } else e),
         (entries.filter (fun e => checkSymlink e.slot e.path)).map
           (fun e => LogLine.unlinked e.name)) := by
  induction entries with
  | nil => rfl
  | cons e rest ih =>
      by_cases hc : checkSymlink e.slot e.path
      · simp [unlinkAllLoop, unlinkOne, hc, ih, List.filter_cons]
      · simp [unlinkAllLoop, unlinkOne, hc, ih, List.filter_cons]

/-- Claim C1, counterexample: decrypting a file entry with a wrong key
raises the decryption error, but the prior working copy at the destination
has been deleted, so the destination is not left exactly as it was before
the call. -/
theorem decrypt_failure_file_deletes_working_copy :
    decryptEntry demoKey2 EKind.file ["f"] demoStore demoBlobName
        (some (WCopy.file (Data.bytes [9]))) = (none, some Err.decryptFail) ∧
    (none : Option WCopy) ≠ some (WCopy.file (Data.bytes [9])) := by decide

/-- Claim C1, amended: when decryption of the blob fails, the entry raises
the decryption error and no plaintext is written or returned; the directory
variant leaves the prior working copy untouched, but the file variant has
already deleted the working copy at the destination, which is left absent
rather than restored. -/
theorem decrypt_failure_no_garbage_amended (key : Bytes) (nm : FPath)
    (store : BlobStore) (encName : BlobName) (wc : Option WCopy) (blob : Data)
    (h1 : storeGet store encName = some blob) (h2 : fernetDecrypt key blob = none) :
    decryptEntry key EKind.file nm store encName wc = (none, some Err.decryptFail) ∧
    decryptEntry key EKind.dir nm store encName wc = (wc, some Err.decryptFail) := by
  constructor <;> simp [decryptEntry, h1, h2]

/-- Claim C1, witness of the amended theorem at a concrete wrong key. -/
theorem decrypt_failure_no_garbage_witness :
    decryptEntry demoKey2 EKind.file ["f"] demoStore demoBlobName
        (some (WCopy.file (Data.bytes [9]))) = (none, some Err.decryptFail) ∧
    decryptEntry demoKey2 EKind.dir ["f"] demoStore demoBlobName
        (some (WCopy.dir [])) = (some (WCopy.dir []), some Err.decryptFail) :=
  ⟨(decrypt_failure_no_garbage_amended demoKey2 ["f"] demoStore demoBlobName
      (some (WCopy.file (Data.bytes [9]))) (fernetEncrypt demoKey (Data.bytes [7, 8]))
      (by decide) (by decide)).1,
   (decrypt_failure_no_garbage_amended demoKey2 ["f"] demoStore demoBlobName
      (some (WCopy.dir [])) (fernetEncrypt demoKey (Data.bytes [7, 8]))
      (by decide) (by decide)).2⟩

/-- Claim C2, counterexample: a five segment blob style name whose timestamp
segment does not parse matches neither the active nor the conflict form, yet
decoding does not fail: the name is silently accepted under the fresh init
interpretation. -/
theorem decode_fallback_accepts_malformed_name :
    specForm5 demoBadName = false ∧ specForm6 demoBadName = false ∧
    encInitParse demoCh (demoCh ++ [demoBadName]) = Except.ok ParseForm.fresh ∧
    encInitParse demoCh (demoCh ++ [demoBadName]) ≠ Except.error Err.parseFail := by decide

/-- Claim C2, amended: decoding raises a parse failure exactly when the path
is not inside the channel; five segment names with a parseable timestamp
decode to the active form and six segment ones to the conflict form, while
any other path inside the channel is silently accepted as a fresh init
entry. -/
theorem decode_parse_failure_iff_outside_channel (ch p : FPath) :
    (encInitParse ch p = Except.error Err.parseFail ↔ relTo p ch = none) ∧
    (∀ nm h ts k c, splitHash (pathName p) = [nm, h, ts, k, c] →
      tsParses ts = true → relTo p ch ≠ none →
      encInitParse ch p = Except.ok (ParseForm.active nm h ts)) ∧
    (∀ nm h ts k c c2, splitHash (pathName p) = [nm, h, ts, k, c, c2] →
      tsParses ts = true → relTo p ch ≠ none →
      encInitParse ch p = Except.ok (ParseForm.conflict nm h ts)) := by
  refine ⟨?_, ?_, ?_⟩
  · cases hr : relTo p ch <;> simp [encInitParse, hr]
  · intro nm h ts k c hs hts hr
    cases hrel : relTo p ch with
    | none => exact absurd hrel hr
    | some q => simp [encInitParse, hrel, hs, classifySegs, hts]
  · intro nm h ts k c c2 hs hts hr
    cases hrel : relTo p ch with
    | none => exact absurd hrel hr
    | some q => simp [encInitParse, hrel, hs, classifySegs, hts]

/-- Claim C2, witness of the amended theorem on well formed five and six
segment names inside the channel. -/
theorem decode_parse_failure_iff_outside_channel_witness :
    encInitParse demoCh (demoCh ++ [demoGoodName])
        = Except.ok (ParseForm.active "file.txt" "IzjOuV4h" "20220121162145") ∧
    encInitParse demoCh (demoCh ++ [demoConfName])
        = Except.ok (ParseForm.conflict "file.txt" "IzjOuV4h" "20220121162145") :=
  ⟨(decode_parse_failure_iff_outside_channel demoCh (demoCh ++ [demoGoodName])).2.1
      "file.txt" "IzjOuV4h" "20220121162145" "F" "CRYPT"
      (by decide) (by decide) (by decide),
   (decode_parse_failure_iff_outside_channel demoCh (demoCh ++ [demoConfName])).2.2
      "file.txt" "IzjOuV4h" "20220121162145" "F" "CRYPT" "CONFLICT"
      (by decide) (by decide) (by decide)⟩

/-- Claim C4, counterexample: with a correct symlink already in place and no
force, link does not raise the already linked error; it removes the symlink
and recreates it, returning success. -/
theorem link_no_already_linked_error :
    linkOp (Slot.symlinkTo ["dots", "common", "a"]) ["dots", "common", "a"] false
      = Except.ok (Slot.symlinkTo ["dots", "common", "a"]) ∧
    linkOp (Slot.symlinkTo ["dots", "common", "a"]) ["dots", "common", "a"] false
      ≠ Except.error Err.alreadyLinked := by decide

/-- Claim C4, amended: link never raises the already linked error (any
existing symlink is removed up front and the check is unreachable); a real
non symlink object at the link path raises the link exists error unless
force, in which case it is removed first; in every other case the symlink is
created. -/
theorem link_behavior_amended (slot : Slot) (p t : FPath) (force : Bool) :
    linkOp slot p force ≠ Except.error Err.alreadyLinked ∧
    linkOp Slot.realObj p false = Except.error Err.linkExists ∧
    linkOp Slot.realObj p true = Except.ok (Slot.symlinkTo p) ∧
    linkOp (Slot.symlinkTo t) p force = Except.ok (Slot.symlinkTo p) ∧
    linkOp Slot.empty p force = Except.ok (Slot.symlinkTo p) := by
  refine ⟨?_, ?_, ?_, ?_, ?_⟩
  · cases slot <;> cases force <;> simp [linkOp, slotIsSymlink, slotExists]
  · simp [linkOp, slotIsSymlink, slotExists]
  · simp [linkOp, slotIsSymlink, slotExists]
  · simp [linkOp, slotIsSymlink, slotExists]
  · simp [linkOp, slotIsSymlink, slotExists]

/-- Claim C6: encrypting a plaintext file or directory into a fresh channel
and decrypting the resulting blob under the same key reproduces the content
byte for byte, for any prior working copy, which is replaced wholesale. -/
theorem encrypt_decrypt_roundtrip (key : Bytes) (nm : FPath) (bs : Bytes)
    (t : List (FPath × Bytes)) (now : String) (wc1 wc2 : Option WCopy) :
    (encryptStep key nm EKind.file (WCopy.file (Data.bytes bs)) [] now false).err = none ∧
    decryptEntry key EKind.file nm
        (encryptStep key nm EKind.file (WCopy.file (Data.bytes bs)) [] now false).store
        (encryptStep key nm EKind.file (WCopy.file (Data.bytes bs)) [] now false).encName
        wc1
      = (some (WCopy.file (Data.bytes bs)), none) ∧
    (encryptStep key nm EKind.dir (WCopy.dir t) [] now false).err = none ∧
    decryptEntry key EKind.dir nm
        (encryptStep key nm EKind.dir (WCopy.dir t) [] now false).store
        (encryptStep key nm EKind.dir (WCopy.dir t) [] now false).encName
        wc2
      = (some (WCopy.dir t), none) := by
  refine ⟨?_, ?_, ?_, ?_⟩ <;>
    simp [encryptStep, decryptEntry, storeHas, storeGet, storeWrite, storeRemove,
      packSrc, getTar, fernetEncrypt, fernetDecrypt]

/-- Claim C7: evaluation at the failing input. A channel containing a plain
opaque directory indexes it as one dotfile entry, but search_conflicts also
appends it to the conflicts list, and channel construction then crashes with
an attribute error while sorting conflicts by timestamp, because a plain
entry has no timestamp attribute. -/
theorem scan_conflicts_plain_dir_crash :
    (searchDotfiles demoCfg7 [] demoItems7).1 = [demoPlainDirEntry] ∧
    demoPlainDirEntry.isEnc = false ∧
    (searchConflicts demoCfg7 [] demoItems7).1 = [demoPlainDirEntry] ∧
    channelInit demoCfg7 [] demoItems7 = Except.error Err.attrErr := by decide

/-- Claim C9: evaluation at the failing input. Encrypting a directory entry
creates a temporary tar archive and leaves it on disk on both exit paths:
when the target blob already exists without force the error is raised before
any cleanup, and on success the cleanup guard re-tests is_dir on the path
already rebound to the tar file, so the archive is never removed. -/
theorem encrypt_leaves_tar_artifact :
    ((encryptStep demoKey ["testdir"] EKind.dir (WCopy.dir demoTree9)
        [(⟨["testdir"], wcHash (WCopy.dir demoTree9), demoNow, EKind.dir⟩, Data.bytes [0])]
        demoNow false).err = some Err.blobExists ∧
     (encryptStep demoKey ["testdir"] EKind.dir (WCopy.dir demoTree9)
        [(⟨["testdir"], wcHash (WCopy.dir demoTree9), demoNow, EKind.dir⟩, Data.bytes [0])]
        demoNow false).tmpTarLeft = true) ∧
    ((encryptStep demoKey ["testdir"] EKind.dir (WCopy.dir demoTree9) [] demoNow false).err
        = none ∧
     (encryptStep demoKey ["testdir"] EKind.dir (WCopy.dir demoTree9) [] demoNow
        false).tmpTarLeft = true) := by decide

/-- Claim C3, counterexample: in a channel whose only entry is already
linked the unlinked subset is empty, yet after confirmation link_all still
invokes link on that entry, as witnessed by the linked debug line the loop
emits for it. -/
theorem link_all_acts_on_linked_entry :
    ([demoLinkedEntry].filter (fun e => !(checkSymlink e.slot e.path))) = [] ∧
    LogLine.linked "a" ∈ (linkAll [demoLinkedEntry] false true).log := by decide

/-- Claim C3, amended: link_all presents the currently unlinked subset but,
once confirmed, invokes link on every entry of the channel, removing and
recreating existing symlinks; a raised link error aborts the remaining
entries instead of being skipped. unlink_all acts exactly on the currently
linked subset, and the not linked case of unlink is a logged no-op rather
than an exception. -/
theorem bulk_ops_amended (entries : List ChEntry) (force : Bool)
    (hok : ∀ e ∈ entries, e.slot ≠ Slot.realObj ∨ force = true) :
    (linkAll entries force true).entries
        = entries.map (fun e => { e with slot := Slot.symlinkTo e.path }) ∧
    (linkAll entries force true).failed = none ∧
    (linkAll entries force true).log
        = (entries.filter (fun e => !(checkSymlink e.slot e.path))).map
            (fun e => LogLine.presentLink e.name)
          ++ entries.map (fun e => LogLine.linked e.name) ∧
    (unlinkAll entries true).entries
        = entries.map (fun e =>
            if checkSymlink e.slot e.path then { e with slot := Slot.empty } else e) ∧
    (unlinkAll entries true).log
        = (entries.filter (fun e => checkSymlink e.slot e.path)).map
            (fun e => LogLine.presentUnlink e.name)
          ++ (entries.filter (fun e => checkSymlink e.slot e.path)).map
            (fun e => LogLine.unlinked e.name) ∧
    (∀ nm p rest, linkAllLoop false (⟨nm, p, Slot.realObj⟩ :: rest)
        = (⟨nm, p, Slot.realObj⟩ :: rest, [], some Err.linkExists)) ∧
    (∀ e : ChEntry, checkSymlink e.slot e.path = false →
        unlinkOne e = (e, [LogLine.errNotLinked e.name])) := by
  refine ⟨?_, ?_, ?_, ?_, ?_, ?_, ?_⟩
  · simp [linkAll, linkAllLoop_ok force entries hok]
  · simp [linkAll, linkAllLoop_ok force entries hok]
  · simp [linkAll, linkAllLoop_ok force entries hok]
  · simp [unlinkAll, unlinkAllLoop_eq]
  · simp [unlinkAll, unlinkAllLoop_eq]
  · intro nm p rest
    simp [linkAllLoop, linkOp, slotIsSymlink, slotExists]
  · intro e hc
    simp [unlinkOne, hc]

/-- Claim C3, witness of the amended theorem on a channel with one linked
and one unlinked entry. -/
theorem bulk_ops_amended_witness :
    (linkAll demoBulk false true).entries
      = demoBulk.map (fun e => { e with slot := Slot.symlinkTo e.path }) :=
  (bulk_ops_amended demoBulk false (by decide)).1

/-- Claim C5: update is a no-op when the entry is not linked or the working
copy is unchanged; otherwise the entry ends up carrying a blob name whose
hash segment is the hash of the current working copy, different from the old
embedded hash, and whose timestamp segment is the current time; the old blob
is gone from the store, the new blob holds the encryption of the working
copy, and the entry is relinked with the working copy reading the new
content. -/
theorem update_cycle_ok (key : Bytes) (e : UEntry) (st : UState) (now : String) :
    (checkSymlink st.slot e.wpath = false → updateOp key e st now = Except.ok (e, st)) ∧
    (∀ w, st.wc = some w → e.hash = wcHash w → updateOp key e st now = Except.ok (e, st)) ∧
    (∀ w, st.slot = Slot.symlinkTo e.wpath → st.wc = some w → e.hash ≠ wcHash w →
      e.encName.hash = e.hash → wcKind w = e.kind →
      updateOp key e st now
          = Except.ok ({ e with encName := ⟨e.nm, wcHash w, now, e.kind⟩ },
              ⟨some w, Slot.symlinkTo e.wpath, updatedStore key e st.store w now⟩) ∧
      storeGet (updatedStore key e st.store w now) e.encName = none ∧
      storeGet (updatedStore key e st.store w now) ⟨e.nm, wcHash w, now, e.kind⟩
          = some (fernetEncrypt key (packSrc e.nm w)) ∧
      wcHash w ≠ e.encName.hash) := by
  refine ⟨?_, ?_, ?_⟩
  · intro hchk
    simp [updateOp, hchk]
  · intro w hwc hsame
    by_cases hchk : checkSymlink st.slot e.wpath
    · simp [updateOp, hchk, hwc, hsame]
    · simp [updateOp, hchk]
  · intro w hslot hwc hchanged hhash hkind
    have hne : (⟨e.nm, wcHash w, now, e.kind⟩ : BlobName) ≠ e.encName := by
      intro hcon
      have h1 : wcHash w = e.encName.hash := by
        have h2 := congrArg BlobName.hash hcon
        simpa using h2
      rw [hhash] at h1
      exact hchanged h1.symm
    have hchk : checkSymlink st.slot e.wpath = true := by
      rw [hslot]; simp [checkSymlink]
    have hold : storeGet (updatedStore key e st.store w now) e.encName = none := by
      unfold updatedStore
      exact storeGet_remove_self _ _
    have hget : storeGet (updatedStore key e st.store w now)
        (⟨e.nm, wcHash w, now, e.kind⟩ : BlobName)
        = some (fernetEncrypt key (packSrc e.nm w)) := by
      unfold updatedStore encryptStep
      simp only [Bool.not_true, Bool.and_false, Bool.false_eq_true, if_false]
      rw [storeGet_remove_ne _ _ _ hne, storeGet_write_self]
    refine ⟨?_, hold, hget, fun hcon => hchanged (hhash ▸ hcon).symm⟩
    cases w with
    | file d =>
        have hk : e.kind = EKind.file := by rw [← hkind]; rfl
        simp only [hk] at hne
        simp only [updateOp, hchk, Bool.not_true, Bool.false_eq_true, if_false, hwc]
        rw [if_neg hchanged]
        simp only [encryptStep, updatedStore, hk, decryptEntry, packSrc, fernetEncrypt,
          Bool.not_true, Bool.and_false, Bool.false_eq_true, if_false]
        rw [storeGet_update _ _ _ _ hne]
        simp [fernetDecrypt, linkOp, slotIsSymlink, slotExists]
    | dir t =>
        have hk : e.kind = EKind.dir := by rw [← hkind]; rfl
        simp only [hk] at hne
        simp only [updateOp, hchk, Bool.not_true, Bool.false_eq_true, if_false, hwc]
        rw [if_neg hchanged]
        simp only [encryptStep, updatedStore, hk, decryptEntry, packSrc, fernetEncrypt,
          getTar, Bool.not_true, Bool.and_false, Bool.false_eq_true, if_false]
        rw [storeGet_update _ _ _ _ hne]
        simp [fernetDecrypt, linkOp, slotIsSymlink, slotExists]

/-- Claim C5, witness: a linked, modified encrypted file entry goes through
the whole update cycle at concrete inputs. -/
theorem update_cycle_ok_witness :
    updateOp demoKey demoUEntry demoUState demoNow
        = Except.ok ({ demoUEntry with
              encName := ⟨["f"], wcHash demoWC, demoNow, EKind.file⟩ },
            ⟨some demoWC, Slot.symlinkTo ["home", "eco", "dots", "decrypted", "common", "f"],
              updatedStore demoKey demoUEntry demoUState.store demoWC demoNow⟩) ∧
    storeGet (updatedStore demoKey demoUEntry demoUState.store demoWC demoNow)
        demoUEntry.encName = none ∧
    storeGet (updatedStore demoKey demoUEntry demoUState.store demoWC demoNow)
        ⟨["f"], wcHash demoWC, demoNow, EKind.file⟩
        = some (fernetEncrypt demoKey (packSrc ["f"] demoWC)) ∧
    wcHash demoWC ≠ demoUEntry.encName.hash :=
  (update_cycle_ok demoKey demoUEntry demoUState demoNow).2.2 demoWC
    rfl rfl (by decide) (by decide) (by decide)

/-- Claim C8, counterexample: with an encrypted blob and a legacy plaintext
file of the same logical name in one channel, the deduplication filter keeps
both entries: the plaintext duplicate is not dropped from the dotfiles
index. -/
theorem filter_decrypted_keeps_plaintext :
    filterDecrypted (searchDotfiles demoCfg8 [] demoItems8).1
      = [demoEncEntry8, demoPlainEntry8] ∧
    demoPlainEntry8.isEnc = false ∧
    demoPlainEntry8 ∈ filterDecrypted (searchDotfiles demoCfg8 [] demoItems8).1 := by decide

/-- Claim C8, amended: the deduplication filter orders encrypted entries
before plain ones instead of dropping the plaintext duplicate, so a lookup
by the shared logical name returns the encrypted entry, while the plaintext
entry remains in the index and its file stays on disk. -/
theorem dedup_lookup_amended (dfs : List SEntry) (nm : FPath)
    (h : ∃ e, e ∈ dfs ∧ e.isEnc = true ∧ e.name = nm) :
    (getDotfile (filterDecrypted dfs) nm).map (fun r => (r.isEnc, r.name))
      = some (true, nm) := by
  obtain ⟨e, hmem, henc, hname⟩ := h
  have hmem1 : e ∈ dfs.filter (fun d => d.isEnc) := by
    rw [List.mem_filter]
    exact ⟨hmem, henc⟩
  have hsome : ((dfs.filter (fun d => d.isEnc)).find?
      (fun d => decide (d.name = nm))).isSome := by
    rw [List.find?_isSome]
    exact ⟨e, hmem1, by simp [hname]⟩
  obtain ⟨r, hr⟩ := Option.isSome_iff_exists.mp hsome
  have hr2 : getDotfile (filterDecrypted dfs) nm = some r := by
    simp only [getDotfile, filterDecrypted]
    rw [List.find?_append, hr]
    rfl
  have hrmem := List.mem_of_find?_eq_some hr
  have hrenc : r.isEnc = true := (List.mem_filter.mp hrmem).2
  have hrname : r.name = nm := by
    have h3 := List.find?_some hr
    simpa using h3
  rw [hr2]
  simp [hrenc, hrname]

/-- Claim C8, witness of the amended lookup on the concrete scanned
channel. -/
theorem dedup_lookup_amended_witness :
    (getDotfile (filterDecrypted (searchDotfiles demoCfg8 [] demoItems8).1) ["f"]).map
        (fun r => (r.isEnc, r.name)) = some (true, ["f"]) :=
  dedup_lookup_amended (searchDotfiles demoCfg8 [] demoItems8).1 ["f"]
    ⟨demoEncEntry8, by decide, by decide, by decide⟩

/-- Claim C10: constructing an encrypted entry object creates the parent
directory of its decrypted working location when it is missing, so even a
read only scan of a channel containing an encrypted blob mutates the
filesystem, as the concrete scan of demoItems8 shows. -/
theorem enc_entry_init_creates_decrypted_parent (fs : List FPath) (parent : FPath)
    (cfg : ScanCfg) (rel : FPath) (fname : String) (hnew : parent ∉ fs)
    (hsfx : strEndsWith fname encFileExt = true) :
    parent ∈ entryEnsure fs parent ∧
    entryEnsure fs parent ≠ fs ∧
    (createObjFs cfg rel fs fname).2 = entryEnsure fs (cfg.decRoot ++ rel) ∧
    (searchDotfiles demoCfg8 [] demoItems8).2 = [demoDecRoot] ∧
    [] ≠ (searchDotfiles demoCfg8 [] demoItems8).2 := by
  refine ⟨?_, ?_, ?_, by decide, by decide⟩
  · simp [entryEnsure, hnew]
  · simp only [entryEnsure, if_neg hnew]
    intro hcon
    have hlen := congrArg List.length hcon
    simp at hlen
  · simp only [createObjFs, hsfx, Bool.or_true, Bool.true_or, if_true]
    cases hc : classifySegs (splitHash fname) <;> simp [hc]

/-- Claim C10, witness at the concrete blob filename with an empty
filesystem. -/
theorem enc_entry_init_creates_decrypted_parent_witness :
    demoDecRoot ∈ entryEnsure [] demoDecRoot ∧
    entryEnsure [] demoDecRoot ≠ [] ∧
    (createObjFs demoCfg8 [] [] "f#ABCDEFGH#20220121162145#F#CRYPT").2
        = entryEnsure [] (demoCfg8.decRoot ++ []) ∧
    (searchDotfiles demoCfg8 [] demoItems8).2 = [demoDecRoot] ∧
    [] ≠ (searchDotfiles demoCfg8 [] demoItems8).2 :=
  enc_entry_init_creates_decrypted_parent [] demoDecRoot demoCfg8 []
    "f#ABCDEFGH#20220121162145#F#CRYPT" (by decide) (by decide)

end Microdot
